import Mathlib

set_option maxHeartbeats 1000000

/-!
Verification of the DFA engine (`src/utils/dfa-engine.ts`).

The data model mirrors `src/types/dfa.ts`; symbols are single characters
(`Char`) and input strings are lists of characters.  The creation / update
timestamps of a stored automaton play no role in the engine and are omitted.
-/

namespace DfaEngine

/-- A single state of the automaton (`DFAState` in `types/dfa.ts`).
The `x`/`y` fields are display positions, irrelevant to execution. -/
structure DFAState where
  id : String
  label : String
  isInitial : Bool
  isAccepting : Bool
  x : Int
  y : Int
deriving Repr, DecidableEq

/-- A transition of the automaton (`DFATransition` in `types/dfa.ts`). -/
structure DFATransition where
  id : String
  fromStateId : String
  toStateId : String
  symbol : Char
deriving Repr, DecidableEq

/-- A complete automaton (`DFA` in `types/dfa.ts`). -/
structure DFA where
  id : String
  name : String
  description : Option String
  alphabet : List Char
  states : List DFAState
  transitions : List DFATransition
  initialStateId : String
  acceptingStateIds : List String
deriving Repr, DecidableEq

/-- Result of running a string through the automaton (`ProcessingResult`). -/
structure ProcessingResult where
  accepted : Bool
  inputString : List Char
  path : List String
  currentState : String
  remainingInput : List Char
  error : Option String
deriving Repr, DecidableEq

/-- One point of the execution trace (`SimulationStep`). -/
structure SimulationStep where
  stateId : String
  symbol : Option Char
  remainingInput : List Char
  stepNumber : Nat
deriving Repr, DecidableEq

/-- Report of the structural validator (`ValidationResult`). -/
structure ValidationResult where
  isValid : Bool
  errors : List String
  warnings : List String
deriving Repr, DecidableEq

/-- Source `DFAEngine.getNextState`: destination of the first transition matching
the current state and symbol, if any. -/
def getNextState (dfa : DFA) (currentStateId : String) (symbol : Char) : Option String :=
  (dfa.transitions.find? fun t => t.fromStateId == currentStateId && t.symbol == symbol).map
    (fun t => t.toStateId)

/-- Loop body of `DFAEngine.getInvalidSymbols`: collect, in order of first
appearance, the input characters outside the alphabet. -/
def getInvalidSymbolsAux (alphabet : List Char) : List Char → List Char → List Char
  | [], invalid => invalid
  | c :: rest, invalid =>
    if !alphabet.contains c && !invalid.contains c then
      getInvalidSymbolsAux alphabet rest (invalid ++ [c])
    else
      getInvalidSymbolsAux alphabet rest invalid

/-- Source `DFAEngine.getInvalidSymbols`. -/
def getInvalidSymbols (dfa : DFA) (input : List Char) : List Char :=
  getInvalidSymbolsAux dfa.alphabet input []

/-- Source `DFAEngine.isValidString`. -/
def isValidString (dfa : DFA) (input : List Char) : Bool :=
  (getInvalidSymbols dfa input).length == 0

/-- Error message of the alphabet pre-check in `processString`. -/
def invalidSymbolsMsg (invalid : List Char) : String :=
  "Invalid symbols in input: " ++ String.intercalate ", " (invalid.map String.singleton)

/-- Error message of a missing transition in `processString`. -/
def noTransitionMsg (stateId : String) (symbol : Char) : String :=
  "No transition found from state \x27" ++ stateId ++ "\x27 with symbol \x27" ++
    String.singleton symbol ++ "\x27"

/-- Rejection message of `processString` for a non-accepting final state. -/
def rejectedMsg (stateId : String) : String :=
  "String rejected: ended in non-accepting state \x27" ++ stateId ++ "\x27"

/-- The `for` loop of `DFAEngine.processString`: walk the remaining input from
the current state, extending the accumulated path. -/
def processLoop (dfa : DFA) (input : List Char) :
    List Char → String → List String → ProcessingResult
  | [], currentStateId, path =>
    let accepted := dfa.acceptingStateIds.contains currentStateId
    { accepted := accepted
      inputString := input
      path := path
      currentState := currentStateId
      remainingInput := []
      error := if accepted then none else some (rejectedMsg currentStateId) }
  | symbol :: rest, currentStateId, path =>
    match getNextState dfa currentStateId symbol with
    | none =>
      { accepted := false
        inputString := input
        path := path
        currentState := currentStateId
        remainingInput := symbol :: rest
        error := some (noTransitionMsg currentStateId symbol) }
    | some nextStateId => processLoop dfa input rest nextStateId (path ++ [nextStateId])

/-- Source `DFAEngine.processString`. -/
def processString (dfa : DFA) (input : List Char) : ProcessingResult :=
  let invalidSymbols := getInvalidSymbols dfa input
  if invalidSymbols.length > 0 then
    { accepted := false
      inputString := input
      path := []
      currentState := dfa.initialStateId
      remainingInput := input
      error := some (invalidSymbolsMsg invalidSymbols) }
  else
    processLoop dfa input input dfa.initialStateId [dfa.initialStateId]

/-- The `for` loop of `DFAEngine.getSimulationSteps`: one step per consumed
symbol, stopping silently at the first missing transition. -/
def simLoop (dfa : DFA) : List Char → String → Nat → List SimulationStep
  | [], _, _ => []
  | symbol :: rest, currentStateId, i =>
    match getNextState dfa currentStateId symbol with
    | none => []
    | some nextStateId =>
      { stateId := nextStateId
        symbol := some symbol
        remainingInput := rest
        stepNumber := i + 1 } :: simLoop dfa rest nextStateId (i + 1)

/-- Source `DFAEngine.getSimulationSteps`. -/
def getSimulationSteps (dfa : DFA) (input : List Char) : List SimulationStep :=
  { stateId := dfa.initialStateId
    symbol := none
    remainingInput := input
    stepNumber := 0 } :: simLoop dfa input dfa.initialStateId 0

/-- Duplicate-state-id check of `DFAEngine.validateDFA` (accumulating the set
of ids seen so far, exactly like the source loop). -/
def duplicateIdErrors : List DFAState → List String → List String
  | [], _ => []
  | s :: rest, seen =>
    if seen.contains s.id then
      ("Duplicate state ID: \x27" ++ s.id ++ "\x27") :: duplicateIdErrors rest (seen ++ [s.id])
    else
      duplicateIdErrors rest (seen ++ [s.id])

/-- The string key `fromStateId-symbol` used by the determinism check. -/
def transitionKey (t : DFATransition) : String :=
  t.fromStateId ++ "-" ++ String.singleton t.symbol

/-- Error message of the determinism check in `validateDFA`. -/
def nondeterminismMsg (fromStateId : String) (symbol : Char) : String :=
  "Non-deterministic: multiple transitions from state \x27" ++ fromStateId ++
    "\x27 with symbol \x27" ++ String.singleton symbol ++ "\x27"

/-- Determinism check of `validateDFA`: an error for every transition whose
(source, symbol) key was already seen. -/
def determinismErrors : List DFATransition → List String → List String
  | [], _ => []
  | t :: rest, seenKeys =>
    if seenKeys.contains (transitionKey t) then
      nondeterminismMsg t.fromStateId t.symbol ::
        determinismErrors rest (seenKeys ++ [transitionKey t])
    else
      determinismErrors rest (seenKeys ++ [transitionKey t])

/-- Reference checks of `validateDFA` for a single transition: its source,
destination and symbol must be known. -/
def transitionRefErrors (dfa : DFA) (t : DFATransition) : List String :=
  (if (dfa.states.find? fun s => s.id == t.fromStateId).isNone then
      ["Transition \x27" ++ t.id ++ "\x27 references non-existent from state \x27" ++
        t.fromStateId ++ "\x27"]
    else []) ++
  (if (dfa.states.find? fun s => s.id == t.toStateId).isNone then
      ["Transition \x27" ++ t.id ++ "\x27 references non-existent to state \x27" ++
        t.toStateId ++ "\x27"]
    else []) ++
  (if !dfa.alphabet.contains t.symbol then
      ["Transition \x27" ++ t.id ++ "\x27 uses symbol \x27" ++ String.singleton t.symbol ++
        "\x27 not in alphabet"]
    else [])

/-- Completeness warnings of `validateDFA`: one per (state, symbol) pair with
no transition. -/
def completenessWarnings (dfa : DFA) : List String :=
  (dfa.states.map fun s =>
    (dfa.alphabet.map fun c =>
      if dfa.transitions.any (fun t => t.fromStateId == s.id && t.symbol == c) then []
      else
        ["Incomplete: state \x27" ++ s.id ++ "\x27 has no transition for symbol \x27" ++
          String.singleton c ++ "\x27"]).flatten).flatten

/-- Source `DFAEngine.validateDFA`: errors and warnings in the order the source
appends them; `isValid` iff no errors. -/
def validateDFA (dfa : DFA) : ValidationResult :=
  let errors :=
    (if dfa.states.length == 0 then ["DFA must have at least one state"] else []) ++
    (if (dfa.states.find? fun s => s.id == dfa.initialStateId).isNone then
        ["Initial state \x27" ++ dfa.initialStateId ++ "\x27 not found in states"]
      else []) ++
    (dfa.acceptingStateIds.map fun aid =>
      if (dfa.states.find? fun s => s.id == aid).isNone then
        ["Accepting state \x27" ++ aid ++ "\x27 not found in states"]
      else []).flatten ++
    duplicateIdErrors dfa.states [] ++
    (dfa.transitions.map (transitionRefErrors dfa)).flatten ++
    determinismErrors dfa.transitions []
  let warnings :=
    (if dfa.alphabet.length == 0 then
        ["Alphabet is empty - DFA can only accept empty string"]
      else []) ++
    completenessWarnings dfa
  { isValid := errors.length == 0, errors := errors, warnings := warnings }

/-- The identifier `q<n>` produced by `generateStateId`. -/
def qId (n : Nat) : String := "q" ++ Nat.repr n

/-- The `while` loop of `generateStateId`.  The fuel bounds the number of
iterations; `existingStates.length + 1` candidates always contain a free one
(proved below), so the fuel never runs out on the loop's actual inputs. -/
def generateStateIdAux (existingStates : List DFAState) : Nat → Nat → String
  | index, 0 => qId index
  | index, fuel + 1 =>
    if existingStates.any (fun s => s.id == qId index) then
      generateStateIdAux existingStates (index + 1) fuel
    else
      qId index

/-- Source `generateStateId`: first identifier `q<N>`, starting at the number of
existing states, that no existing state uses. -/
def generateStateId (existingStates : List DFAState) : String :=
  generateStateIdAux existingStates existingStates.length (existingStates.length + 1)

/-! Specification-side functions used to state the claims. -/

/-- Result of the raw walk of the automaton on an input: visited states,
final state, unconsumed suffix. -/
structure WalkResult where
  path : List String
  finalState : String
  remaining : List Char
deriving Repr, DecidableEq

/-- The walk `processString` performs after its alphabet pre-check (and the
walk `getSimulationSteps` traces): follow `getNextState` until the input is
exhausted or a transition is missing. -/
def processWalk (dfa : DFA) : String → List Char → WalkResult
  | cur, [] => ⟨[cur], cur, []⟩
  | cur, c :: rest =>
    match getNextState dfa cur c with
    | none => ⟨[cur], cur, c :: rest⟩
    | some next =>
      let w := processWalk dfa next rest
      ⟨cur :: w.path, w.finalState, w.remaining⟩

/-- Number of transitions the walk takes before the input ends or a
transition is missing. -/
def stepsTaken (dfa : DFA) : String → List Char → Nat
  | _, [] => 0
  | cur, c :: rest =>
    match getNextState dfa cur c with
    | none => 0
    | some next => stepsTaken dfa next rest + 1

/-- Keep the first occurrence of every element, dropping later repeats. -/
def dedupKeepFirst : List Char → List Char
  | [] => []
  | c :: rest => c :: dedupKeepFirst (rest.filter (fun d => d != c))
termination_by l => l.length
decreasing_by
  simp only [List.length_cons]
  exact Nat.lt_succ_of_le (List.length_filter_le _ _)

/-! Concrete automata used as witnesses. -/

/-- The "ends in 01" automaton of the specification. -/
def endsIn01 : DFA :=
  { id := "dfa-ends-in-01"
    name := "Ends in 01"
    description := none
    alphabet := ['0', '1']
    states :=
      [⟨"q0", "q0", true, false, 0, 0⟩, ⟨"q1", "q1", false, false, 0, 0⟩,
        ⟨"q2", "q2", false, true, 0, 0⟩]
    transitions :=
      [⟨"t1", "q0", "q1", '0'⟩, ⟨"t2", "q0", "q0", '1'⟩, ⟨"t3", "q1", "q1", '0'⟩,
        ⟨"t4", "q1", "q2", '1'⟩, ⟨"t5", "q2", "q1", '0'⟩, ⟨"t6", "q2", "q0", '1'⟩]
    initialStateId := "q0"
    acceptingStateIds := ["q2"] }

/-- An incomplete automaton: no transition from `q1` at all. -/
def incompleteDFA : DFA :=
  { id := "dfa-incomplete"
    name := "Incomplete"
    description := none
    alphabet := ['0', '1']
    states := [⟨"q0", "q0", true, false, 0, 0⟩, ⟨"q1", "q1", false, true, 0, 0⟩]
    transitions := [⟨"t1", "q0", "q1", '0'⟩]
    initialStateId := "q0"
    acceptingStateIds := ["q1"] }

/-- An automaton with a transition labelled by a symbol outside its
alphabet. -/
def strayDFA : DFA :=
  { id := "dfa-stray"
    name := "Stray symbol"
    description := none
    alphabet := ['a']
    states := [⟨"q0", "q0", true, false, 0, 0⟩, ⟨"q1", "q1", false, false, 0, 0⟩]
    transitions := [⟨"t1", "q0", "q1", 'z'⟩]
    initialStateId := "q0"
    acceptingStateIds := [] }

/-- An automaton with two transitions on the same (source, symbol) pair. -/
def nonDetDFA : DFA :=
  { id := "dfa-nondet"
    name := "Nondeterministic"
    description := none
    alphabet := ['a']
    states := [⟨"q0", "q0", true, false, 0, 0⟩, ⟨"q1", "q1", false, false, 0, 0⟩]
    transitions := [⟨"ta", "q0", "q0", 'a'⟩, ⟨"tb", "q0", "q1", 'a'⟩]
    initialStateId := "q0"
    acceptingStateIds := [] }

example : (processString endsIn01 ['0', '1']).accepted = true := by decide
example : (processString endsIn01 ['0', '1']).path = ["q0", "q1", "q2"] := by decide
example : (processString endsIn01 ['1', '0', '0', '1']).accepted = true := by decide
example : (processString endsIn01 ['1', '0']).accepted = false := by decide
example : (processString endsIn01 ['0', '1', '2']).path = [] := by decide
example :
    (processString endsIn01 ['0', '1', '2']).error =
      some "Invalid symbols in input: 2" := by decide
example : (getSimulationSteps endsIn01 ['0', '1']).length = 3 := by decide
example :
    getSimulationSteps endsIn01 ['0', '1'] =
      [⟨"q0", none, ['0', '1'], 0⟩, ⟨"q1", some '0', ['1'], 1⟩, ⟨"q2", some '1', [], 2⟩] := by
  decide
example : (validateDFA endsIn01).isValid = true := by decide
example : (validateDFA nonDetDFA).isValid = false := by decide
example : generateStateId endsIn01.states = "q3" := by decide
example : (getSimulationSteps strayDFA ['z']).length = 2 := by decide

/-! Basic facts about the walk. -/

theorem processWalk_path_head (dfa : DFA) (cur : String) (cs : List Char) :
    (processWalk dfa cur cs).path = cur :: (processWalk dfa cur cs).path.tail := by
  cases cs with
  | nil => rfl
  | cons c rest => cases h : getNextState dfa cur c <;> simp [processWalk, h]

theorem processWalk_length (dfa : DFA) (cur : String) (cs : List Char) :
    (processWalk dfa cur cs).path.length + (processWalk dfa cur cs).remaining.length
      = cs.length + 1 := by
  induction cs generalizing cur with
  | nil => rfl
  | cons c rest ih =>
    cases h : getNextState dfa cur c with
    | none => simp [processWalk, h]; omega
    | some next =>
      have := ih next
      simp only [processWalk, h, List.length_cons]
      omega

theorem processLoop_done (dfa : DFA) (input cs : List Char) (cur : String)
    (acc : List String) (h : (processWalk dfa cur cs).remaining = []) :
    processLoop dfa input cs cur acc =
      { accepted := dfa.acceptingStateIds.contains (processWalk dfa cur cs).finalState
        inputString := input
        path := acc ++ (processWalk dfa cur cs).path.tail
        currentState := (processWalk dfa cur cs).finalState
        remainingInput := []
        error :=
          if dfa.acceptingStateIds.contains (processWalk dfa cur cs).finalState then none
          else some (rejectedMsg (processWalk dfa cur cs).finalState) } := by
  induction cs generalizing cur acc with
  | nil => simp [processLoop, processWalk]
  | cons c rest ih =>
    cases hn : getNextState dfa cur c with
    | none => simp [processWalk, hn] at h
    | some next =>
      have h' : (processWalk dfa next rest).remaining = [] := by
        simpa [processWalk, hn] using h
      have hp := processWalk_path_head dfa next rest
      simp only [processLoop, hn]
      rw [ih next (acc ++ [next]) h']
      simp only [processWalk, hn, List.tail_cons, List.append_assoc, List.singleton_append]
      rw [← hp]

theorem processLoop_stuck (dfa : DFA) (input cs : List Char) (cur : String)
    (acc : List String) (c : Char) (r : List Char)
    (h : (processWalk dfa cur cs).remaining = c :: r) :
    processLoop dfa input cs cur acc =
      { accepted := false
        inputString := input
        path := acc ++ (processWalk dfa cur cs).path.tail
        currentState := (processWalk dfa cur cs).finalState
        remainingInput := c :: r
        error := some (noTransitionMsg (processWalk dfa cur cs).finalState c) } := by
  induction cs generalizing cur acc with
  | nil => simp [processWalk] at h
  | cons c0 rest ih =>
    cases hn : getNextState dfa cur c0 with
    | none =>
      simp only [processWalk, hn] at h
      obtain ⟨rfl, rfl⟩ := List.cons.injEq .. ▸ h
      simp [processLoop, hn, processWalk]
    | some next =>
      have h' : (processWalk dfa next rest).remaining = c :: r := by
        simpa [processWalk, hn] using h
      have hp := processWalk_path_head dfa next rest
      simp only [processLoop, hn]
      rw [ih next (acc ++ [next]) h']
      simp only [processWalk, hn, List.tail_cons, List.append_assoc, List.singleton_append]
      rw [← hp]

theorem processString_invalid_eq (dfa : DFA) (input : List Char)
    (h : getInvalidSymbols dfa input ≠ []) :
    processString dfa input =
      { accepted := false
        inputString := input
        path := []
        currentState := dfa.initialStateId
        remainingInput := input
        error := some (invalidSymbolsMsg (getInvalidSymbols dfa input)) } := by
  have hl : (getInvalidSymbols dfa input).length > 0 := List.length_pos.mpr h
  simp [processString, hl]

theorem processString_done (dfa : DFA) (input : List Char)
    (h : getInvalidSymbols dfa input = [])
    (hr : (processWalk dfa dfa.initialStateId input).remaining = []) :
    processString dfa input =
      { accepted :=
          dfa.acceptingStateIds.contains (processWalk dfa dfa.initialStateId input).finalState
        inputString := input
        path := (processWalk dfa dfa.initialStateId input).path
        currentState := (processWalk dfa dfa.initialStateId input).finalState
        remainingInput := []
        error :=
          if dfa.acceptingStateIds.contains
              (processWalk dfa dfa.initialStateId input).finalState then none
          else some (rejectedMsg (processWalk dfa dfa.initialStateId input).finalState) } := by
  have hp := processWalk_path_head dfa dfa.initialStateId input
  simp only [processString, h, List.length_nil, gt_iff_lt, Nat.lt_irrefl, if_false]
  rw [processLoop_done dfa input input dfa.initialStateId [dfa.initialStateId] hr]
  simp only [List.singleton_append]
  rw [← hp]

theorem processString_stuck (dfa : DFA) (input : List Char)
    (h : getInvalidSymbols dfa input = []) (c : Char) (r : List Char)
    (hr : (processWalk dfa dfa.initialStateId input).remaining = c :: r) :
    processString dfa input =
      { accepted := false
        inputString := input
        path := (processWalk dfa dfa.initialStateId input).path
        currentState := (processWalk dfa dfa.initialStateId input).finalState
        remainingInput := c :: r
        error :=
          some (noTransitionMsg (processWalk dfa dfa.initialStateId input).finalState c) } := by
  have hp := processWalk_path_head dfa dfa.initialStateId input
  simp only [processString, h, List.length_nil, gt_iff_lt, Nat.lt_irrefl, if_false]
  rw [processLoop_stuck dfa input input dfa.initialStateId [dfa.initialStateId] c r hr]
  simp only [List.singleton_append]
  rw [← hp]

/-! Characterization of `getInvalidSymbols`. -/

theorem dedupKeepFirst_cons (c : Char) (rest : List Char) :
    dedupKeepFirst (c :: rest) = c :: dedupKeepFirst (rest.filter (fun d => d != c)) := by
  simp [dedupKeepFirst]

theorem mem_dedupKeepFirst (a : Char) (l : List Char) : a ∈ dedupKeepFirst l ↔ a ∈ l := by
  induction l using dedupKeepFirst.induct with
  | case1 => simp [dedupKeepFirst]
  | case2 c rest ih =>
    rw [dedupKeepFirst_cons]
    by_cases hac : a = c
    · subst hac; simp
    · simp only [List.mem_cons, ih, List.mem_filter, bne_iff_ne, ne_eq]
      constructor
      · rintro (rfl | ⟨h1, _⟩)
        · exact Or.inl rfl
        · exact Or.inr h1
      · rintro (rfl | h1)
        · exact Or.inl rfl
        · exact Or.inr ⟨h1, hac⟩

theorem dedupKeepFirst_eq_nil (l : List Char) : dedupKeepFirst l = [] ↔ l = [] := by
  cases l with
  | nil => simp [dedupKeepFirst]
  | cons c rest => rw [dedupKeepFirst_cons]; simp

theorem getInvalidSymbolsAux_spec (alphabet : List Char) (input : List Char) :
    ∀ acc : List Char,
      getInvalidSymbolsAux alphabet input acc =
        acc ++ dedupKeepFirst (input.filter fun c => !alphabet.contains c && !acc.contains c) := by
  induction input with
  | nil => intro acc; simp [getInvalidSymbolsAux, dedupKeepFirst]
  | cons c rest ih =>
    intro acc
    by_cases hal : c ∈ alphabet
    · rw [getInvalidSymbolsAux, if_neg (by simp [hal])]
      rw [ih acc, List.filter_cons, if_neg (by simp [hal])]
    · by_cases hacc : c ∈ acc
      · rw [getInvalidSymbolsAux, if_neg (by simp [hacc])]
        rw [ih acc, List.filter_cons, if_neg (by simp [hacc])]
      · rw [getInvalidSymbolsAux, if_pos (by simp [hal, hacc])]
        rw [ih (acc ++ [c]), List.filter_cons, if_pos (by simp [hal, hacc])]
        rw [dedupKeepFirst_cons, List.filter_filter, List.append_assoc, List.singleton_append]
        have hf :
            rest.filter (fun a => (a != c) && (!alphabet.contains a && !acc.contains a)) =
              rest.filter (fun a => !alphabet.contains a && !(acc ++ [c]).contains a) := by
          apply List.filter_congr
          intro d _
          by_cases h1 : alphabet.contains d <;> by_cases h2 : acc.contains d <;>
            by_cases h3 : d = c <;>
            simp_all [beq_eq_decide]
        rw [hf]

theorem getInvalidSymbols_eq (dfa : DFA) (input : List Char) :
    getInvalidSymbols dfa input =
      dedupKeepFirst (input.filter fun c => !dfa.alphabet.contains c) := by
  rw [getInvalidSymbols, getInvalidSymbolsAux_spec]
  simp

theorem getInvalidSymbols_eq_nil (dfa : DFA) (input : List Char) :
    getInvalidSymbols dfa input = [] ↔ ∀ c ∈ input, c ∈ dfa.alphabet := by
  rw [getInvalidSymbols_eq, dedupKeepFirst_eq_nil, List.filter_eq_nil_iff]
  simp

theorem processWalk_append (dfa : DFA) (l1 l2 : List Char) (cur : String)
    (h : (processWalk dfa cur l1).remaining = []) :
    processWalk dfa cur (l1 ++ l2) =
      ⟨(processWalk dfa cur l1).path ++
          (processWalk dfa (processWalk dfa cur l1).finalState l2).path.tail,
        (processWalk dfa (processWalk dfa cur l1).finalState l2).finalState,
        (processWalk dfa (processWalk dfa cur l1).finalState l2).remaining⟩ := by
  induction l1 generalizing cur with
  | nil =>
    have hp := processWalk_path_head dfa cur l2
    rcases hw : processWalk dfa cur l2 with ⟨p, f, r⟩
    rw [hw] at hp
    simp only [processWalk, List.nil_append, hw]
    rw [List.singleton_append, ← hp]
  | cons c rest ih =>
    cases hn : getNextState dfa cur c with
    | none => simp [processWalk, hn] at h
    | some next =>
      have h' : (processWalk dfa next rest).remaining = [] := by
        simpa [processWalk, hn] using h
      simp only [List.cons_append, processWalk, hn, List.append_eq, ih next h']

/-- Shared helper: the exact result of `processString` when the alphabet check
passes, the prefix of length `i` is consumed, and the transition at position
`i` is missing. -/
theorem processString_stuckAt (dfa : DFA) (input : List Char) (i : Nat)
    (hAlph : ∀ c ∈ input, c ∈ dfa.alphabet) (hi : i < input.length)
    (hpre : (processWalk dfa dfa.initialStateId (input.take i)).remaining = [])
    (hstuck :
      getNextState dfa (processWalk dfa dfa.initialStateId (input.take i)).finalState
        (input.get ⟨i, hi⟩) = none) :
    processString dfa input =
      { accepted := false
        inputString := input
        path := (processWalk dfa dfa.initialStateId (input.take i)).path
        currentState := (processWalk dfa dfa.initialStateId (input.take i)).finalState
        remainingInput := input.drop i
        error :=
          some (noTransitionMsg
            (processWalk dfa dfa.initialStateId (input.take i)).finalState
            (input.get ⟨i, hi⟩)) } := by
  have h0 : getInvalidSymbols dfa input = [] := (getInvalidSymbols_eq_nil dfa input).mpr hAlph
  have hdrop : input.drop i = input.get ⟨i, hi⟩ :: input.drop (i + 1) :=
    List.drop_eq_getElem_cons hi
  have hsplit : input = input.take i ++ input.drop i := (List.take_append_drop i input).symm
  have hwalk :
      processWalk dfa dfa.initialStateId input =
        ⟨(processWalk dfa dfa.initialStateId (input.take i)).path,
          (processWalk dfa dfa.initialStateId (input.take i)).finalState,
          input.drop i⟩ := by
    have hstuck' :
        getNextState dfa (processWalk dfa dfa.initialStateId (input.take i)).finalState
          input[i] = none := by simpa using hstuck
    conv_lhs => rw [hsplit]
    rw [processWalk_append dfa (input.take i) (input.drop i) dfa.initialStateId hpre]
    rw [hdrop]
    simp [processWalk, hstuck']
  have hrem : (processWalk dfa dfa.initialStateId input).remaining =
      input.get ⟨i, hi⟩ :: input.drop (i + 1) := by rw [hwalk, ← hdrop]
  rw [processString_stuck dfa input h0 (input.get ⟨i, hi⟩) (input.drop (i + 1)) hrem]
  rw [hwalk, ← hdrop]

/-- C1: `processString` accepts exactly when every input character lies in the
alphabet, the walk from the initial state consumes the whole input through
defined transitions, and the final state's identifier is in the accepting
set. -/
theorem C1_processString_accepted_iff (dfa : DFA) (input : List Char) :
    (processString dfa input).accepted = true ↔
      (∀ c ∈ input, c ∈ dfa.alphabet) ∧
        (processWalk dfa dfa.initialStateId input).remaining = [] ∧
        (processWalk dfa dfa.initialStateId input).finalState ∈ dfa.acceptingStateIds := by
  by_cases h : getInvalidSymbols dfa input = []
  · cases hr : (processWalk dfa dfa.initialStateId input).remaining with
    | nil =>
      rw [processString_done dfa input h hr]
      have hall := (getInvalidSymbols_eq_nil dfa input).mp h
      constructor
      · intro hacc
        exact ⟨hall, rfl, by simpa using hacc⟩
      · rintro ⟨-, -, hf⟩
        simpa using hf
    | cons c r =>
      rw [processString_stuck dfa input h c r hr]
      simp [hr]
  · rw [processString_invalid_eq dfa input h]
    have hva : ¬ ∀ c ∈ input, c ∈ dfa.alphabet := fun hh =>
      h ((getInvalidSymbols_eq_nil dfa input).mpr hh)
    simp [hva]

/-- C2: on input containing at least one symbol outside the alphabet,
`processString` returns immediately: not accepted, empty path, current state
the initial state, the whole input remaining, and a failure message naming
the invalid symbols; those symbols are listed each exactly once, in order
of first appearance (the deduplicated filter of the input). -/
theorem C2_processString_invalid (dfa : DFA) (input : List Char)
    (h : ∃ c ∈ input, c ∉ dfa.alphabet) :
    processString dfa input =
      { accepted := false
        inputString := input
        path := []
        currentState := dfa.initialStateId
        remainingInput := input
        error := some (invalidSymbolsMsg (getInvalidSymbols dfa input)) } ∧
      getInvalidSymbols dfa input =
        dedupKeepFirst (input.filter fun c => !dfa.alphabet.contains c) := by
  have hne : getInvalidSymbols dfa input ≠ [] := by
    intro hnil
    obtain ⟨c, hc, hca⟩ := h
    exact hca ((getInvalidSymbols_eq_nil dfa input).mp hnil c hc)
  exact ⟨processString_invalid_eq dfa input hne, getInvalidSymbols_eq dfa input⟩

theorem C2_witness :
    (∃ c ∈ (['0', '2', '1', '2', '3'] : List Char), c ∉ endsIn01.alphabet) ∧
      (processString endsIn01 ['0', '2', '1', '2', '3'] =
        { accepted := false
          inputString := ['0', '2', '1', '2', '3']
          path := []
          currentState := endsIn01.initialStateId
          remainingInput := ['0', '2', '1', '2', '3']
          error := some (invalidSymbolsMsg (getInvalidSymbols endsIn01 ['0', '2', '1', '2', '3'])) } ∧
        getInvalidSymbols endsIn01 ['0', '2', '1', '2', '3'] =
          dedupKeepFirst
            (['0', '2', '1', '2', '3'].filter fun c => !endsIn01.alphabet.contains c)) :=
  ⟨by decide, C2_processString_invalid endsIn01 ['0', '2', '1', '2', '3'] (by decide)⟩

/-- C3: with all symbols in the alphabet, if the walk has consumed the first
`i` characters and no transition is defined at position `i`, `processString`
reports failure with the path so far, the last state reached, the unconsumed
suffix from position `i`, and a message naming that state and symbol. -/
theorem C3_processString_missing_transition (dfa : DFA) (input : List Char) (i : Nat)
    (hAlph : ∀ c ∈ input, c ∈ dfa.alphabet) (hi : i < input.length)
    (hpre : (processWalk dfa dfa.initialStateId (input.take i)).remaining = [])
    (hstuck :
      getNextState dfa (processWalk dfa dfa.initialStateId (input.take i)).finalState
        (input.get ⟨i, hi⟩) = none) :
    processString dfa input =
      { accepted := false
        inputString := input
        path := (processWalk dfa dfa.initialStateId (input.take i)).path
        currentState := (processWalk dfa dfa.initialStateId (input.take i)).finalState
        remainingInput := input.drop i
        error :=
          some (noTransitionMsg
            (processWalk dfa dfa.initialStateId (input.take i)).finalState
            (input.get ⟨i, hi⟩)) } :=
  processString_stuckAt dfa input i hAlph hi hpre hstuck

theorem C3_witness :
    processString incompleteDFA ['0', '1'] =
      { accepted := false
        inputString := ['0', '1']
        path := ["q0", "q1"]
        currentState := "q1"
        remainingInput := ['1']
        error := some (noTransitionMsg "q1" '1') } := by
  have h := C3_processString_missing_transition incompleteDFA ['0', '1'] 1 (by decide)
    (by decide) (by decide) (by decide)
  rw [h]
  decide

/-- C4: with no invalid symbols, full consumption gives a path of length
`input.length + 1`, and a failure at zero-based index `i` gives a path of
length `i + 1`. -/
theorem C4_path_length (dfa : DFA) (input : List Char)
    (hAlph : ∀ c ∈ input, c ∈ dfa.alphabet) :
    ((processString dfa input).remainingInput = [] →
      (processString dfa input).path.length = input.length + 1) ∧
    (∀ i, (hi : i < input.length) →
      (processWalk dfa dfa.initialStateId (input.take i)).remaining = [] →
      getNextState dfa (processWalk dfa dfa.initialStateId (input.take i)).finalState
          (input.get ⟨i, hi⟩) = none →
      (processString dfa input).path.length = i + 1) := by
  have h0 : getInvalidSymbols dfa input = [] := (getInvalidSymbols_eq_nil dfa input).mpr hAlph
  constructor
  · intro hrem
    cases hr : (processWalk dfa dfa.initialStateId input).remaining with
    | nil =>
      rw [processString_done dfa input h0 hr]
      have hl := processWalk_length dfa dfa.initialStateId input
      rw [hr] at hl
      simpa using hl
    | cons c r =>
      rw [processString_stuck dfa input h0 c r hr] at hrem
      simp at hrem
  · intro i hi hpre hstuck
    rw [processString_stuckAt dfa input i hAlph hi hpre hstuck]
    have hl := processWalk_length dfa dfa.initialStateId (input.take i)
    rw [hpre] at hl
    have hti : (input.take i).length = i := by
      simp [List.length_take]
      omega
    simp only [List.length_nil, Nat.add_zero] at hl
    simpa [hti] using hl

theorem C4_witness :
    ((processString incompleteDFA ['0']).path.length = ['0'].length + 1) ∧
      ((processString incompleteDFA ['0', '1']).path.length = 1 + 1) :=
  ⟨(C4_path_length incompleteDFA ['0'] (by decide)).1 (by decide),
    (C4_path_length incompleteDFA ['0', '1'] (by decide)).2 1 (by decide) (by decide) (by decide)⟩

/-! Facts about the simulation trace. -/

theorem simLoop_map_stateId (dfa : DFA) (cs : List Char) :
    ∀ (cur : String) (i : Nat),
      (simLoop dfa cs cur i).map SimulationStep.stateId =
        (processWalk dfa cur cs).path.tail := by
  induction cs with
  | nil => intro cur i; simp [simLoop, processWalk]
  | cons c rest ih =>
    intro cur i
    cases hn : getNextState dfa cur c with
    | none => simp [simLoop, processWalk, hn]
    | some next =>
      simp only [simLoop, hn, processWalk, List.map_cons, List.tail_cons]
      rw [ih next (i + 1), ← processWalk_path_head]

theorem getSimulationSteps_map_stateId (dfa : DFA) (input : List Char) :
    (getSimulationSteps dfa input).map SimulationStep.stateId =
      (processWalk dfa dfa.initialStateId input).path := by
  simp only [getSimulationSteps, List.map_cons, simLoop_map_stateId]
  rw [← processWalk_path_head]

theorem simLoop_length (dfa : DFA) (cs : List Char) :
    ∀ (cur : String) (i : Nat), (simLoop dfa cs cur i).length = stepsTaken dfa cur cs := by
  induction cs with
  | nil => intro cur i; rfl
  | cons c rest ih =>
    intro cur i
    cases hn : getNextState dfa cur c with
    | none => simp [simLoop, stepsTaken, hn]
    | some next => simp [simLoop, stepsTaken, hn, ih next]

theorem stepsTaken_le (dfa : DFA) (cs : List Char) :
    ∀ cur : String, stepsTaken dfa cur cs ≤ cs.length := by
  induction cs with
  | nil => intro cur; simp [stepsTaken]
  | cons c rest ih =>
    intro cur
    cases hn : getNextState dfa cur c with
    | none => simp [stepsTaken, hn]
    | some next =>
      simp only [stepsTaken, hn, List.length_cons]
      exact Nat.succ_le_succ (ih next)

/-- C5: the state identifiers of the simulation steps form a prefix of the
walk `processString` performs — which is its returned path whenever the
alphabet pre-check passes — and the number of steps minus one is the minimum
of the input length and the number of transitions taken before the first
undefined transition. -/
theorem C5_simulation_vs_processString (dfa : DFA) (input : List Char) :
    ((getSimulationSteps dfa input).map SimulationStep.stateId <+:
        (processWalk dfa dfa.initialStateId input).path) ∧
      (getInvalidSymbols dfa input = [] →
        (processString dfa input).path = (processWalk dfa dfa.initialStateId input).path) ∧
      (getSimulationSteps dfa input).length - 1 =
        min input.length (stepsTaken dfa dfa.initialStateId input) := by
  refine ⟨?_, ?_, ?_⟩
  · rw [getSimulationSteps_map_stateId]
  · intro h
    cases hr : (processWalk dfa dfa.initialStateId input).remaining with
    | nil => rw [processString_done dfa input h hr]
    | cons c r => rw [processString_stuck dfa input h c r hr]
  · simp only [getSimulationSteps, List.length_cons, simLoop_length]
    rw [Nat.min_eq_right (stepsTaken_le dfa input dfa.initialStateId)]
    omega

theorem C5_witness :
    ((getSimulationSteps endsIn01 ['0', '1']).map SimulationStep.stateId <+:
        (processWalk endsIn01 endsIn01.initialStateId ['0', '1']).path) ∧
      ((processString endsIn01 ['0', '1']).path =
        (processWalk endsIn01 endsIn01.initialStateId ['0', '1']).path) ∧
      (getSimulationSteps endsIn01 ['0', '1']).length - 1 =
        min (['0', '1'] : List Char).length
          (stepsTaken endsIn01 endsIn01.initialStateId ['0', '1']) :=
  ⟨(C5_simulation_vs_processString endsIn01 ['0', '1']).1,
    (C5_simulation_vs_processString endsIn01 ['0', '1']).2.1 (by decide),
    (C5_simulation_vs_processString endsIn01 ['0', '1']).2.2⟩

/-- C6 counterexample: `strayDFA` carries a transition from its initial state
on symbol `z` even though `z` is not in its alphabet, so `getSimulationSteps`
on input "z" takes that transition and returns two steps, not one. -/
theorem C6_counterexample :
    ('z' ∉ strayDFA.alphabet) ∧ (getSimulationSteps strayDFA ['z']).length ≠ 1 := by
  decide

/-- C6 (amended): `getSimulationSteps` performs no alphabet membership
pre-check — an unrecognized first symbol is handled exactly like any other
symbol, through `getNextState` alone.  When the initial state additionally
has no transition on that (out-of-alphabet) first character, exactly one
step, the initial-state step, is returned. -/
theorem C6_no_alphabet_precheck (dfa : DFA) (c : Char) (rest : List Char)
    (_hc : c ∉ dfa.alphabet)
    (hn : getNextState dfa dfa.initialStateId c = none) :
    (getSimulationSteps dfa (c :: rest)).length = 1 := by
  simp [getSimulationSteps, simLoop, hn]

theorem C6_witness :
    ('z' ∉ endsIn01.alphabet) ∧
      getNextState endsIn01 endsIn01.initialStateId 'z' = none ∧
      (getSimulationSteps endsIn01 ['z', '0']).length = 1 :=
  ⟨by decide, by decide, C6_no_alphabet_precheck endsIn01 'z' ['0'] (by decide) (by decide)⟩

theorem simLoop_get (dfa : DFA) (cs : List Char) :
    ∀ (cur : String) (i k : Nat) (h : k < (simLoop dfa cs cur i).length),
      ((simLoop dfa cs cur i).get ⟨k, h⟩).stepNumber = i + k + 1 ∧
        ((simLoop dfa cs cur i).get ⟨k, h⟩).remainingInput = cs.drop (k + 1) := by
  induction cs with
  | nil => intro cur i k h; simp [simLoop] at h
  | cons c rest ih =>
    intro cur i k h
    cases hn : getNextState dfa cur c with
    | none => simp [simLoop, hn] at h
    | some next =>
      cases k with
      | zero => simp [simLoop, hn]
      | succ k' =>
        have h' : k' < (simLoop dfa rest next (i + 1)).length := by
          have := h
          simp only [simLoop, hn, List.length_cons] at this
          omega
        have hk := ih next (i + 1) k' h'
        simp only [List.get_eq_getElem] at hk ⊢
        simp only [simLoop, hn, List.getElem_cons_succ]
        refine ⟨?_, ?_⟩
        · rw [hk.1]; omega
        · rw [hk.2, List.drop_succ_cons]

/-- C10: the step at zero-based position `k` of the trace has step number `k`
and, as remaining input, the input with its first `k` characters removed;
the first step is the initial state with no symbol and the full input. -/
theorem C10_simulation_step_fields (dfa : DFA) (input : List Char) (k : Nat)
    (h : k < (getSimulationSteps dfa input).length) :
    ((getSimulationSteps dfa input).get ⟨k, h⟩).stepNumber = k ∧
      ((getSimulationSteps dfa input).get ⟨k, h⟩).remainingInput = input.drop k ∧
      (getSimulationSteps dfa input).head? =
        some ⟨dfa.initialStateId, none, input, 0⟩ := by
  refine ⟨?_, ?_, rfl⟩ <;> cases k with
  | zero => simp [getSimulationSteps]
  | succ k' =>
    have h' : k' < (simLoop dfa input dfa.initialStateId 0).length := by
      have := h
      simp only [getSimulationSteps, List.length_cons] at this
      omega
    have hk := simLoop_get dfa input dfa.initialStateId 0 k' h'
    simp only [List.get_eq_getElem] at hk ⊢
    simp only [getSimulationSteps, List.getElem_cons_succ]
    first
    | (rw [hk.1]; omega)
    | rw [hk.2]

theorem C10_witness :
    ((getSimulationSteps endsIn01 ['0', '1']).get ⟨1, by decide⟩).stepNumber = 1 ∧
      ((getSimulationSteps endsIn01 ['0', '1']).get ⟨1, by decide⟩).remainingInput =
        ['0', '1'].drop 1 ∧
      (getSimulationSteps endsIn01 ['0', '1']).head? =
        some ⟨endsIn01.initialStateId, none, ['0', '1'], 0⟩ :=
  C10_simulation_step_fields endsIn01 ['0', '1'] 1 (by decide)

/-! Facts about the validator. -/

theorem determinismErrors_mem_of_seen :
    ∀ (ts : List DFATransition) (seen : List String) (t : DFATransition),
      t ∈ ts → transitionKey t ∈ seen →
      nondeterminismMsg t.fromStateId t.symbol ∈ determinismErrors ts seen := by
  intro ts
  induction ts with
  | nil => intro seen t ht _; simp at ht
  | cons t0 rest ih =>
    intro seen t ht hkey
    rcases List.mem_cons.mp ht with rfl | htr
    · rw [determinismErrors, if_pos (by simpa using hkey)]
      exact List.mem_cons_self _ _
    · rw [determinismErrors]
      by_cases h0 : transitionKey t0 ∈ seen
      · rw [if_pos (by simpa using h0)]
        exact List.mem_cons_of_mem _ (ih _ t htr (by simp [hkey]))
      · rw [if_neg (by simpa using h0)]
        exact ih _ t htr (by simp [hkey])

theorem determinismErrors_append (l2 : List DFATransition) :
    ∀ (l1 : List DFATransition) (seen : List String),
      determinismErrors (l1 ++ l2) seen =
        determinismErrors l1 seen ++ determinismErrors l2 (seen ++ l1.map transitionKey) := by
  intro l1
  induction l1 with
  | nil => intro seen; simp [determinismErrors]
  | cons t rest ih =>
    intro seen
    simp only [List.cons_append, determinismErrors]
    cases hc : seen.contains (transitionKey t) <;>
      simp [ih, List.append_assoc]

theorem determinismErrors_mem_of_split (l1 l2 : List DFATransition) (ta tb : DFATransition)
    (htb : tb ∈ l2) (hk : transitionKey tb = transitionKey ta) :
    nondeterminismMsg tb.fromStateId tb.symbol ∈
      determinismErrors (l1 ++ ta :: l2) [] := by
  rw [determinismErrors_append (ta :: l2) l1 []]
  apply List.mem_append_right
  have hmem := determinismErrors_mem_of_seen l2
    ((([] : List String) ++ l1.map transitionKey) ++ [transitionKey ta]) tb htb (by simp [hk])
  by_cases hc : transitionKey ta ∈ ([] : List String) ++ l1.map transitionKey
  · rw [determinismErrors, if_pos (by simpa using hc)]
    exact List.mem_cons_of_mem _ hmem
  · rw [determinismErrors, if_neg (by simpa using hc)]
    exact hmem

theorem validateDFA_errors_det (dfa : DFA) (e : String)
    (h : e ∈ determinismErrors dfa.transitions []) : e ∈ (validateDFA dfa).errors := by
  simp only [validateDFA]
  exact List.mem_append_right _ h

theorem validateDFA_isValid_iff (dfa : DFA) :
    (validateDFA dfa).isValid = true ↔ (validateDFA dfa).errors = [] := by
  constructor
  · intro h
    have h' : ((validateDFA dfa).errors.length == 0) = true := h
    exact List.length_eq_zero.mp (beq_iff_eq.mp h')
  · intro h
    show ((validateDFA dfa).errors.length == 0) = true
    rw [h]
    rfl

/-- C7: two distinct transitions sharing source state and symbol (with
different destinations) put a non-determinism error naming that source state
and that symbol into the report, so the automaton is not valid. -/
theorem C7_determinism_violation (dfa : DFA) (t1 t2 : DFATransition)
    (h1 : t1 ∈ dfa.transitions) (h2 : t2 ∈ dfa.transitions) (hne : t1 ≠ t2)
    (hf : t1.fromStateId = t2.fromStateId) (hs : t1.symbol = t2.symbol)
    (_hd : t1.toStateId ≠ t2.toStateId) :
    (∃ e ∈ (validateDFA dfa).errors, e = nondeterminismMsg t1.fromStateId t1.symbol) ∧
      (validateDFA dfa).isValid = false := by
  have hkey : transitionKey t1 = transitionKey t2 := by
    rw [transitionKey, transitionKey, hf, hs]
  have hmain :
      nondeterminismMsg t1.fromStateId t1.symbol ∈ determinismErrors dfa.transitions [] := by
    obtain ⟨s, t', hsplit⟩ := List.append_of_mem h1
    rw [hsplit] at h2
    rcases List.mem_append.mp h2 with h2s | h2t
    · obtain ⟨s1, s2, hs2⟩ := List.append_of_mem h2s
      rw [hsplit, hs2, List.append_assoc, List.cons_append]
      exact determinismErrors_mem_of_split s1 (s2 ++ t1 :: t') t2 t1
        (List.mem_append_right s2 (List.mem_cons_self t1 t')) hkey
    · rcases List.mem_cons.mp h2t with rfl | h2t'
      · exact absurd rfl hne
      · rw [hsplit]
        have := determinismErrors_mem_of_split s t' t1 t2 h2t' hkey.symm
        rw [hf, hs]
        exact this
  have herr := validateDFA_errors_det dfa _ hmain
  refine ⟨⟨_, herr, rfl⟩, ?_⟩
  have hne' : (validateDFA dfa).errors ≠ [] := List.ne_nil_of_mem herr
  cases hv : (validateDFA dfa).isValid with
  | false => rfl
  | true => exact absurd ((validateDFA_isValid_iff dfa).mp hv) hne'

theorem C7_witness :
    (∃ e ∈ (validateDFA nonDetDFA).errors, e = nondeterminismMsg "q0" 'a') ∧
      (validateDFA nonDetDFA).isValid = false :=
  C7_determinism_violation nonDetDFA ⟨"ta", "q0", "q0", 'a'⟩ ⟨"tb", "q0", "q1", 'a'⟩
    (by decide) (by decide) (by decide) (by decide) (by decide) (by decide)

/-- C8: the report's `isValid` field is true exactly when its error list is
empty; `isValid` is computed from the errors alone, so warnings (missing
transitions, empty alphabet) never make it false. -/
theorem C8_isValid_iff_no_errors (dfa : DFA) :
    (validateDFA dfa).isValid = true ↔ (validateDFA dfa).errors = [] :=
  validateDFA_isValid_iff dfa

/-! Injectivity of the decimal printer, needed for `generateStateId`. -/

/-- Decimal value of a digit string (left inverse of the decimal printer). -/
def decVal : List Char → Nat
  | [] => 0
  | c :: cs => (c.toNat - 48) * 10 ^ cs.length + decVal cs

theorem digitChar_toNat (m : Nat) (hm : m < 10) : (Nat.digitChar m).toNat - 48 = m := by
  interval_cases m <;> rfl

theorem decVal_toDigitsCore (fuel : Nat) :
    ∀ (n : Nat) (ds : List Char), n < fuel →
      decVal (Nat.toDigitsCore 10 fuel n ds) = n * 10 ^ ds.length + decVal ds := by
  induction fuel with
  | zero => intro n ds h; omega
  | succ fuel ih =>
    intro n ds h
    simp only [Nat.toDigitsCore]
    by_cases h0 : n / 10 = 0
    · rw [if_pos h0]
      have hn10 : n < 10 := by omega
      rw [decVal, digitChar_toNat (n % 10) (Nat.mod_lt n (by norm_num)),
        Nat.mod_eq_of_lt hn10]
    · rw [if_neg h0]
      have hpos : 0 < n := by
        rcases Nat.eq_zero_or_pos n with rfl | hp
        · simp at h0
        · exact hp
      have hlt : n / 10 < n := Nat.div_lt_self hpos (by norm_num)
      rw [ih (n / 10) (Nat.digitChar (n % 10) :: ds) (by omega)]
      rw [decVal, digitChar_toNat (n % 10) (Nat.mod_lt n (by norm_num))]
      have hdm : 10 * (n / 10) + n % 10 = n := Nat.div_add_mod n 10
      conv_rhs => rw [← hdm]
      simp only [List.length_cons, pow_succ]
      ring

theorem decVal_toDigits (n : Nat) : decVal (Nat.toDigits 10 n) = n := by
  rw [Nat.toDigits]
  have h := decVal_toDigitsCore (n + 1) n [] (Nat.lt_succ_self n)
  simpa [decVal] using h

theorem natRepr_injective : Function.Injective Nat.repr := by
  intro m n h
  have hdigits : Nat.toDigits 10 m = Nat.toDigits 10 n := by
    have hdata : (Nat.repr m).data = (Nat.repr n).data := by rw [h]
    simpa [Nat.repr, List.asString] using hdata
  have hm := decVal_toDigits m
  rw [hdigits, decVal_toDigits n] at hm
  exact hm.symm

theorem qId_injective : Function.Injective qId := by
  intro m n h
  apply natRepr_injective
  have hdata : (qId m).data = (qId n).data := by rw [h]
  simp only [qId, String.data_append] at hdata
  have hcons : ('q' :: (Nat.repr m).data) = ('q' :: (Nat.repr n).data) := by
    simpa using hdata
  have hd : (Nat.repr m).data = (Nat.repr n).data := by
    injection hcons
  cases hr1 : Nat.repr m with
  | mk d1 =>
    cases hr2 : Nat.repr n with
    | mk d2 =>
      rw [hr1, hr2] at hd
      simp only at hd
      rw [hd]

/-- Pigeonhole: among the `length + 1` candidate identifiers
`q<length>, ..., q<2*length>` at least one is unused. -/
theorem exists_free_index (states : List DFAState) :
    ∃ j, j < states.length + 1 ∧ ∀ s ∈ states, s.id ≠ qId (states.length + j) := by
  by_contra hcon
  push_neg at hcon
  have hinj : Function.Injective (fun j : Nat => qId (states.length + j)) := by
    intro a b hab
    have := qId_injective hab
    omega
  have hsub :
      (Finset.range (states.length + 1)).image (fun j => qId (states.length + j)) ⊆
        states.toFinset.image DFAState.id := by
    intro x hx
    obtain ⟨j, hj, rfl⟩ := Finset.mem_image.mp hx
    obtain ⟨s, hs, hsid⟩ := hcon j (Finset.mem_range.mp hj)
    exact Finset.mem_image.mpr ⟨s, List.mem_toFinset.mpr hs, hsid⟩
  have hcard1 :
      ((Finset.range (states.length + 1)).image
        (fun j => qId (states.length + j))).card = states.length + 1 := by
    rw [Finset.card_image_of_injective _ hinj, Finset.card_range]
  have hcard2 : (states.toFinset.image DFAState.id).card ≤ states.length :=
    le_trans (Finset.card_image_le) (List.toFinset_card_le states)
  have := Finset.card_le_card hsub
  omega

theorem generateStateIdAux_spec (states : List DFAState) :
    ∀ (fuel index : Nat),
      (∃ j, j < fuel ∧ ∀ s ∈ states, s.id ≠ qId (index + j)) →
      ∃ N, generateStateIdAux states index fuel = qId N ∧ index ≤ N ∧
        (∀ s ∈ states, s.id ≠ qId N) ∧
        ∀ M, index ≤ M → M < N → ∃ s ∈ states, s.id = qId M := by
  intro fuel
  induction fuel with
  | zero =>
    rintro index ⟨j, hj, -⟩
    omega
  | succ fuel ih =>
    rintro index ⟨j, hj, hfree⟩
    rw [generateStateIdAux]
    by_cases hb : ∃ s ∈ states, s.id = qId index
    · rw [if_pos (by simp only [List.any_eq_true, beq_iff_eq]; exact hb)]
      have hj0 : j ≠ 0 := by
        rintro rfl
        obtain ⟨s, hsmem, hsid⟩ := hb
        exact hfree s hsmem (by simpa using hsid)
      obtain ⟨N, heq, hle, hnb, hint⟩ := ih (index + 1)
        ⟨j - 1, by omega, by
          intro s hs
          have hf := hfree s hs
          have harith : index + 1 + (j - 1) = index + j := by omega
          rw [harith]
          exact hf⟩
      refine ⟨N, heq, by omega, hnb, ?_⟩
      intro M h1 h2
      rcases Nat.eq_or_lt_of_le h1 with rfl | h1'
      · exact hb
      · exact hint M h1' h2
    · rw [if_neg (by simp only [List.any_eq_true, beq_iff_eq]; exact hb)]
      push_neg at hb
      exact ⟨index, rfl, Nat.le_refl _, hb, fun M hm1 hm2 => absurd hm1 (by omega)⟩

/-- C9: `generateStateId` returns `q<N>`, where `N` starts at the number of
existing states and increments past every identifier already in use; the
result never collides with an existing state's identifier, and every skipped
candidate was in use. -/
theorem C9_generateStateId_fresh (existingStates : List DFAState) :
    (∀ s ∈ existingStates, s.id ≠ generateStateId existingStates) ∧
      ∃ N, generateStateId existingStates = qId N ∧ existingStates.length ≤ N ∧
        ∀ M, existingStates.length ≤ M → M < N →
          ∃ s ∈ existingStates, s.id = qId M := by
  obtain ⟨j, hj, hfree⟩ := exists_free_index existingStates
  obtain ⟨N, heq, hle, hnb, hint⟩ := generateStateIdAux_spec existingStates
    (existingStates.length + 1) existingStates.length ⟨j, hj, hfree⟩
  have heq' : generateStateId existingStates = qId N := heq
  rw [heq']
  exact ⟨hnb, N, rfl, hle, hint⟩

end DfaEngine
